import Mathlib

/-!
Shallow embedding of the client-side table helpers in
`src/templates/static/js/events.js`: select-all toggling, section
collapse/expand, column filtering, and bulk-id collection.

DOM state is modelled explicitly: a table row is a list of cell texts
together with an inline display string; a checkbox is a checked flag with
a string value; a collapsible section is its inline display string paired
with the presence of the icon's "open" class.
-/

/-- Embedding of JavaScript `String.prototype.toLowerCase`,
per-character lowercasing. -/
def jsToLower (s : String) : String :=
  ⟨s.data.map Char.toLower⟩

/-- Does the character list starting here begin with `pat`? -/
def listStartsWith : List Char → List Char → Bool
  | [], _ => true
  | _ :: _, [] => false
  | p :: ps, c :: cs => p == c && listStartsWith ps cs

/-- Does `l` contain `pat` as a contiguous sublist?  Embedding of the
search performed by JavaScript `String.prototype.includes`. -/
def listContainsSub (pat : List Char) : List Char → Bool
  | [] => listStartsWith pat []
  | c :: cs => listStartsWith pat (c :: cs) || listContainsSub pat cs

/-- Embedding of JavaScript `s.includes(pat)`. -/
def strIncludes (s pat : String) : Bool :=
  listContainsSub pat.data s.data

/-- State of a collapsible section with its toggle icon: the section's
inline `style.display` string and whether the icon's class list contains
`open`. -/
structure SectionState where
  display : String
  iconOpen : Bool
deriving DecidableEq, Repr

/-- Embedding of `toggleSection` (events.js lines 10-21): if the inline
display reads `"none"` the section is shown (`"block"`) and the icon
gains the `open` class; otherwise the section is hidden (`"none"`) and
the icon loses the `open` class. -/
def toggleSection (s : SectionState) : SectionState :=
  if s.display = "none" then { display := "block", iconOpen := true }
  else { display := "none", iconOpen := false }

/-- A section is hidden when its inline display reads `"none"`. -/
def SectionState.hiddenB (s : SectionState) : Bool :=
  s.display == "none"

/-- Claim C4: on every invocation, if the section's current inline display
style is textually equal to "none" then display is set to "block" and the
"open" class is added to the icon; otherwise display is set to "none" and
the "open" class is removed. -/
theorem toggleSection_transition (s : SectionState) :
    (s.display = "none" → toggleSection s = ⟨"block", true⟩) ∧
    (s.display ≠ "none" → toggleSection s = ⟨"none", false⟩) := by
  constructor <;> intro h <;> simp [toggleSection, h]

/-- Witness for C4 at two concrete section states. -/
theorem toggleSection_transition_witness :
    toggleSection ⟨"none", false⟩ = ⟨"block", true⟩ ∧
    toggleSection ⟨"block", true⟩ = ⟨"none", false⟩ :=
  ⟨(toggleSection_transition ⟨"none", false⟩).1 rfl,
   (toggleSection_transition ⟨"block", true⟩).2 (by decide)⟩

/-- Claim C5: when no inline display has ever been set (the inline style
reads as the empty string), the first invocation hides the section: display
becomes "none" and the icon's "open" class is removed. -/
theorem toggleSection_unset_first_click (io : Bool) :
    toggleSection ⟨"", io⟩ = ⟨"none", false⟩ := by
  simp [toggleSection]

/-- Claim C9: after any single invocation the section and icon are mutually
consistent: either display is "block" with the "open" class present, or
display is "none" with the "open" class absent. -/
theorem toggleSection_post_consistent (s : SectionState) :
    toggleSection s = ⟨"block", true⟩ ∨ toggleSection s = ⟨"none", false⟩ := by
  by_cases h : s.display = "none" <;> simp [toggleSection, h]

/-- Counterexample to claim C3 as stated: starting from display "block"
with the icon's "open" class absent (an inconsistent pairing), two toggles
leave the icon with the "open" class present, not absent as it began. -/
theorem toggleSection_double_cex :
    ¬ ((toggleSection (toggleSection ⟨"block", false⟩)).iconOpen
        = (⟨"block", false⟩ : SectionState).iconOpen) := by
  decide

/-- Claim C3 (amended): two successive toggles always restore the section's
hidden/visible status; they restore the icon's "open"-class presence
provided the icon started consistent with the section (class present
exactly when the section was not hidden). -/
theorem toggleSection_double (s : SectionState) :
    (toggleSection (toggleSection s)).hiddenB = s.hiddenB ∧
    (s.iconOpen = !s.hiddenB →
      (toggleSection (toggleSection s)).iconOpen = s.iconOpen) := by
  by_cases h : s.display = "none"
  · simp [toggleSection, SectionState.hiddenB, h]
  · simp [toggleSection, SectionState.hiddenB, h, beq_eq_false_iff_ne.mpr h]

/-- Witness for the amended C3 at a concrete consistent state. -/
theorem toggleSection_double_witness :
    (toggleSection (toggleSection ⟨"none", false⟩)).hiddenB
      = (⟨"none", false⟩ : SectionState).hiddenB ∧
    (toggleSection (toggleSection ⟨"none", false⟩)).iconOpen
      = (⟨"none", false⟩ : SectionState).iconOpen :=
  ⟨(toggleSection_double ⟨"none", false⟩).1,
   (toggleSection_double ⟨"none", false⟩).2 (by decide)⟩

/-- A checkbox input of class `event-checkbox`: its `checked` flag and its
string `value`. -/
structure Checkbox where
  checked : Bool
  value : String
deriving DecidableEq, Repr

/-- Embedding of `toggleSelectAll` (events.js lines 2-7): every checkbox
matching `input.event-checkbox` inside the table has its `checked`
property set to the source checkbox's current `checked` value. -/
def toggleSelectAll (checked : Bool) (boxes : List Checkbox) : List Checkbox :=
  boxes.map (fun cb => { cb with checked := checked })

/-- Claim C6: after invoking select-all with source value `b`, every
checkbox in the table has `checked = b` regardless of its prior state,
and the checkboxes (their values, in order) are otherwise untouched. -/
theorem toggleSelectAll_sets_all (b : Bool) (boxes : List Checkbox) :
    (∀ cb ∈ toggleSelectAll b boxes, cb.checked = b) ∧
    (toggleSelectAll b boxes).map Checkbox.value = boxes.map Checkbox.value := by
  constructor
  · intro cb hcb
    simp only [toggleSelectAll, List.mem_map] at hcb
    obtain ⟨cb0, _, rfl⟩ := hcb
    rfl
  · simp [toggleSelectAll]

/-- Witness for C6: a concrete previously-unchecked checkbox is checked
after select-all with `b = true`. -/
theorem toggleSelectAll_sets_all_witness :
    (⟨true, "7"⟩ : Checkbox).checked = true :=
  (toggleSelectAll_sets_all true [⟨false, "7"⟩]).1 ⟨true, "7"⟩ (by decide)

/-- A table body row as seen by the bulk-id collection: its inline display
string (possibly "none" when filtered out) and the `event-checkbox` inputs
it contains. -/
structure BRow where
  display : String
  boxes : List Checkbox
deriving DecidableEq, Repr

/-- Embedding of `querySelectorAll("input.event-checkbox:checked")` on the
table: all checked checkboxes in DOM document order, taken from every row
whatever its display. -/
def queryChecked : List BRow → List Checkbox
  | [] => []
  | r :: rs => r.boxes.filter (fun cb => cb.checked) ++ queryChecked rs

/-- All `event-checkbox` inputs of the table in DOM document order. -/
def allBoxes : List BRow → List Checkbox
  | [] => []
  | r :: rs => r.boxes ++ allBoxes rs

/-- Hexadecimal digit character for `n < 16`. -/
def hexDigit (n : Nat) : Char :=
  if n < 10 then Char.ofNat (48 + n) else Char.ofNat (87 + n)

/-- JSON escaping of one character inside a string literal, as performed by
`JSON.stringify`. -/
def jsonEscapeChar (c : Char) : String :=
  if c = '"' then "\\\""
  else if c = '\\' then "\\\\"
  else if c = '\x08' then "\\b"
  else if c = '\x09' then "\\t"
  else if c = '\x0a' then "\\n"
  else if c = '\x0c' then "\\f"
  else if c = '\x0d' then "\\r"
  else if c.toNat < 32 then
    "\\u00" ++ String.mk [hexDigit (c.toNat / 16), hexDigit (c.toNat % 16)]
  else String.mk [c]

/-- JSON string literal for `s`, as produced by `JSON.stringify`. -/
def jsonQuote (s : String) : String :=
  "\"" ++ String.join (s.data.map jsonEscapeChar) ++ "\""

/-- `JSON.stringify` on an array of strings. -/
def jsonStringifyArr (xs : List String) : String :=
  "[" ++ String.intercalate "," (xs.map jsonQuote) ++ "]"

/-- Embedding of `collectBulkIds` (events.js lines 47-52): the string
written into the hidden input, namely `JSON.stringify` of the values of
the checked checkboxes of the table in document order. -/
def collectBulkIds (rows : List BRow) : String :=
  jsonStringifyArr ((queryChecked rows).map (fun cb => cb.value))

theorem queryChecked_eq_filter (rows : List BRow) :
    queryChecked rows = (allBoxes rows).filter (fun cb => cb.checked) := by
  induction rows with
  | nil => rfl
  | cons r rs ih => simp [queryChecked, allBoxes, List.filter_append, ih]

theorem queryChecked_congr (rs1 rs2 : List BRow)
    (h : rs1.map BRow.boxes = rs2.map BRow.boxes) :
    queryChecked rs1 = queryChecked rs2 := by
  induction rs1 generalizing rs2 with
  | nil => cases rs2 <;> simp_all [queryChecked]
  | cons r rs ih =>
    cases rs2 with
    | nil => simp at h
    | cons r2 rs2 =>
      simp only [List.map_cons, List.cons.injEq] at h
      simp [queryChecked, h.1, ih rs2 h.2]

/-- Claim C2: the hidden input receives the JSON array serialization of the
values of exactly the checked checkboxes, in document order (unchecked ones
excluded); the result depends only on the checkboxes, so checked boxes on
hidden (filtered-out) rows are still included. -/
theorem collectBulkIds_content (rows : List BRow) :
    collectBulkIds rows
      = jsonStringifyArr
          (((allBoxes rows).filter (fun cb => cb.checked)).map
            (fun cb => cb.value)) ∧
    ∀ rs2 : List BRow, rs2.map BRow.boxes = rows.map BRow.boxes →
      collectBulkIds rs2 = collectBulkIds rows := by
  constructor
  · simp [collectBulkIds, queryChecked_eq_filter]
  · intro rs2 h
    simp [collectBulkIds, queryChecked_congr rs2 rows h]

/-- Witness for C2: a checked checkbox on a hidden row is still collected,
and the serialization lists exactly the checked values. -/
theorem collectBulkIds_content_witness :
    collectBulkIds [⟨"", [⟨true, "7"⟩, ⟨false, "3"⟩]⟩]
      = jsonStringifyArr
          (((allBoxes [⟨"", [⟨true, "7"⟩, ⟨false, "3"⟩]⟩]).filter
              (fun cb => cb.checked)).map (fun cb => cb.value)) ∧
    collectBulkIds [⟨"none", [⟨true, "7"⟩, ⟨false, "3"⟩]⟩]
      = collectBulkIds [⟨"", [⟨true, "7"⟩, ⟨false, "3"⟩]⟩] :=
  ⟨(collectBulkIds_content [⟨"", [⟨true, "7"⟩, ⟨false, "3"⟩]⟩]).1,
   (collectBulkIds_content [⟨"", [⟨true, "7"⟩, ⟨false, "3"⟩]⟩]).2
     [⟨"none", [⟨true, "7"⟩, ⟨false, "3"⟩]⟩] (by decide)⟩

/-- Claim C8: with zero checked checkboxes the operation still succeeds and
writes the two-character string for the empty JSON array. -/
theorem collectBulkIds_none_checked (rows : List BRow)
    (h : ∀ cb ∈ allBoxes rows, cb.checked = false) :
    collectBulkIds rows = "[]" := by
  have hq : queryChecked rows = [] := by
    rw [queryChecked_eq_filter]
    simp only [List.filter_eq_nil_iff]
    intro cb hcb
    simp [h cb hcb]
  simp [collectBulkIds, hq, jsonStringifyArr, String.intercalate]

/-- Witness for C8 at a concrete table with one unchecked checkbox. -/
theorem collectBulkIds_none_checked_witness :
    collectBulkIds [⟨"", [⟨false, "7"⟩]⟩] = "[]" :=
  collectBulkIds_none_checked [⟨"", [⟨false, "7"⟩]⟩] (by decide)

/-- A table body row as seen by the column filter: the `innerText` of each
child cell of the `tr` (index 0 is the leading checkbox cell) and the row's
inline display string. -/
structure Row where
  children : List String
  display : String
deriving DecidableEq, Repr

/-- The inner `filters.forEach` of `filterTable` (events.js lines 33-40),
running over the filters from index `i` with the current `visible` flag.
An empty (falsy) lowered filter value leaves the row alone without touching
the cell; a non-empty one reads `row.children[idx + 1].innerText`, which
faults (`none`) when that cell is absent, and clears `visible` when the
lowered cell text does not contain the lowered filter value. -/
def runFiltersFrom (children : List String) : Nat → List String → Bool → Option Bool
  | _, [], v => some v
  | i, f :: rest, v =>
    if jsToLower f = "" then runFiltersFrom children (i + 1) rest v
    else
      match children[i + 1]? with
      | none => none
      | some cell =>
        runFiltersFrom children (i + 1) rest
          (if strIncludes (jsToLower cell) (jsToLower f) then v else false)

/-- One iteration of the outer `rows.forEach` of `filterTable`: compute the
row's visibility from the filter values and set `row.style.display` to ""
(visible) or "none" (hidden); `none` models the fault thrown when a needed
cell is missing. -/
def filterRow (filters : List String) (row : Row) : Option Row :=
  match runFiltersFrom row.children 0 filters true with
  | none => none
  | some v => some { row with display := if v then "" else "none" }

/-- Embedding of `filterTable` (events.js lines 24-44) over the body rows,
given the current values of the `.filter-input` controls in DOM order. -/
def filterTable (filters : List String) : List Row → Option (List Row)
  | [] => some []
  | r :: rs =>
    match filterRow filters r with
    | none => none
    | some r' =>
      match filterTable filters rs with
      | none => none
      | some rs' => some (r' :: rs')

/-- Every filter from index `i` on either has an empty lowered value or
finds its cell: the run faults exactly when this fails. -/
def cellsOkFrom (children : List String) : Nat → List String → Bool
  | _, [] => true
  | i, f :: rest =>
    (jsToLower f == "" || (children[i + 1]?).isSome)
      && cellsOkFrom children (i + 1) rest

/-- Every filter from index `i` on either has an empty lowered value or its
cell's lowered text contains the lowered filter value. -/
def passesFrom (children : List String) : Nat → List String → Bool
  | _, [] => true
  | i, f :: rest =>
    (jsToLower f == ""
        || strIncludes (jsToLower ((children[i + 1]?).getD "")) (jsToLower f))
      && passesFrom children (i + 1) rest

theorem runFiltersFrom_eq (children : List String) (fs : List String) :
    ∀ (i : Nat) (v : Bool),
      runFiltersFrom children i fs v
        = if cellsOkFrom children i fs then
            some (v && passesFrom children i fs)
          else none := by
  induction fs with
  | nil => intro i v; simp [runFiltersFrom, cellsOkFrom, passesFrom]
  | cons f rest ih =>
    intro i v
    by_cases hf : jsToLower f = ""
    · simp [runFiltersFrom, cellsOkFrom, passesFrom, hf, ih]
    · cases hc : children[i + 1]? with
      | none =>
        simp [runFiltersFrom, cellsOkFrom, hf, hc,
          beq_eq_false_iff_ne.mpr hf]
      | some cell =>
        by_cases hinc : strIncludes (jsToLower cell) (jsToLower f) = true
        · simp [runFiltersFrom, cellsOkFrom, passesFrom, hf, hc, hinc, ih,
            beq_eq_false_iff_ne.mpr hf]
        · simp only [Bool.not_eq_true] at hinc
          simp [runFiltersFrom, cellsOkFrom, passesFrom, hf, hc, hinc, ih,
            beq_eq_false_iff_ne.mpr hf]

theorem jsToLower_eq_empty (f : String) : jsToLower f = "" ↔ f = "" := by
  constructor
  · intro h
    have hd : f.data.map Char.toLower = ([] : List Char) :=
      congrArg String.data h
    simp only [List.map_eq_nil_iff] at hd
    exact String.ext hd
  · intro h
    subst h
    rfl

theorem cellsOkFrom_iff (children : List String) (fs : List String) :
    ∀ i : Nat, cellsOkFrom children i fs = true ↔
      ∀ j f, fs[j]? = some f → f ≠ "" →
        (children[i + j + 1]?).isSome = true := by
  induction fs with
  | nil => intro i; simp [cellsOkFrom]
  | cons f rest ih =>
    intro i
    simp only [cellsOkFrom, Bool.and_eq_true, ih (i + 1)]
    constructor
    · rintro ⟨h1, h2⟩ j g hg hgne
      cases j with
      | zero =>
        simp only [List.getElem?_cons_zero, Option.some.injEq] at hg
        subst hg
        rw [Bool.or_eq_true] at h1
        rcases h1 with h | h
        · exact absurd ((jsToLower_eq_empty f).mp (beq_iff_eq.mp h)) hgne
        · exact h
      | succ j =>
        simp only [List.getElem?_cons_succ] at hg
        have hrec := h2 j g hg hgne
        have hidx : i + 1 + j + 1 = i + (j + 1) + 1 := by omega
        rwa [hidx] at hrec
    · intro h
      refine ⟨?_, ?_⟩
      · by_cases hf : f = ""
        · subst hf
          simp [jsToLower]
        · have hx := h 0 f (by simp) hf
          simp [hx]
      · intro j g hg hgne
        have hrec := h (j + 1) g (by simpa using hg) hgne
        have hidx : i + (j + 1) + 1 = i + 1 + j + 1 := by omega
        rwa [hidx] at hrec

theorem passesFrom_iff (children : List String) (fs : List String) :
    ∀ i : Nat, passesFrom children i fs = true ↔
      ∀ j f, fs[j]? = some f → f ≠ "" →
        strIncludes (jsToLower ((children[i + j + 1]?).getD ""))
          (jsToLower f) = true := by
  induction fs with
  | nil => intro i; simp [passesFrom]
  | cons f rest ih =>
    intro i
    simp only [passesFrom, Bool.and_eq_true, ih (i + 1)]
    constructor
    · rintro ⟨h1, h2⟩ j g hg hgne
      cases j with
      | zero =>
        simp only [List.getElem?_cons_zero, Option.some.injEq] at hg
        subst hg
        rw [Bool.or_eq_true] at h1
        rcases h1 with h | h
        · exact absurd ((jsToLower_eq_empty f).mp (beq_iff_eq.mp h)) hgne
        · exact h
      | succ j =>
        simp only [List.getElem?_cons_succ] at hg
        have hrec := h2 j g hg hgne
        have hidx : i + 1 + j + 1 = i + (j + 1) + 1 := by omega
        rwa [hidx] at hrec
    · intro h
      refine ⟨?_, ?_⟩
      · by_cases hf : f = ""
        · subst hf
          simp [jsToLower]
        · have hx := h 0 f (by simp) hf
          simp [hx]
      · intro j g hg hgne
        have hrec := h (j + 1) g (by simpa using hg) hgne
        have hidx : i + (j + 1) + 1 = i + 1 + j + 1 := by omega
        rwa [hidx] at hrec

theorem filterRow_visible_aux (filters : List String) (row row' : Row)
    (h : filterRow filters row = some row') :
    (row'.display = "" ∨ row'.display = "none") ∧
    (row'.display = "" ↔ ∀ i f, filters[i]? = some f → f ≠ "" →
      ∃ c, row.children[i + 1]? = some c ∧
        strIncludes (jsToLower c) (jsToLower f) = true) := by
  unfold filterRow at h
  rw [runFiltersFrom_eq] at h
  by_cases hok : cellsOkFrom row.children 0 filters = true
  · rw [if_pos hok, Option.some.injEq] at h
    subst h
    have hcells := (cellsOkFrom_iff row.children filters 0).mp hok
    have hpass := passesFrom_iff row.children filters 0
    constructor
    · by_cases hp : passesFrom row.children 0 filters = true <;> simp [hp]
    · by_cases hp : passesFrom row.children 0 filters = true
      · simp only [Bool.true_and, hp, if_pos]
        constructor
        · intro _ i f hi hf
          have hs := (cellsOkFrom_iff row.children filters 0).mp hok i f hi hf
          obtain ⟨c, hc⟩ := Option.isSome_iff_exists.mp hs
          refine ⟨c, by simpa using hc, ?_⟩
          have := hpass.mp hp i f hi hf
          rw [show (0 : Nat) + i + 1 = i + 1 by omega] at hc this
          simpa [hc] using this
        · intro _
          trivial
      · simp only [Bool.true_and, hp, if_neg, Bool.false_eq_true]
        constructor
        · intro hcontra
          exact absurd hcontra (by decide)
        · intro hall
          exfalso
          apply hp
          apply hpass.mpr
          intro j f hj hf
          have hs := hcells j f hj hf
          obtain ⟨c, hc⟩ := Option.isSome_iff_exists.mp hs
          rw [show (0 : Nat) + j + 1 = j + 1 by omega] at hc
          obtain ⟨c', hc', hinc⟩ := hall j f hj hf
          rw [hc] at hc'
          cases hc'
          rw [show (0 : Nat) + j + 1 = j + 1 by omega, hc]
          simpa using hinc
  · rw [if_neg hok] at h
    exact absurd h (by simp)

theorem filterTable_get (filters : List String) :
    ∀ (rows rows' : List Row), filterTable filters rows = some rows' →
      ∀ (k : Nat) (row : Row), rows[k]? = some row →
        ∃ row', rows'[k]? = some row' ∧ filterRow filters row = some row' := by
  intro rows
  induction rows with
  | nil =>
    intro rows' h k row hk
    simp at hk
  | cons r rs ih =>
    intro rows' h k row hk
    unfold filterTable at h
    cases hr : filterRow filters r with
    | none => rw [hr] at h; exact absurd h (by simp)
    | some r' =>
      rw [hr] at h
      cases hrs : filterTable filters rs with
      | none => rw [hrs] at h; exact absurd h (by simp)
      | some rs' =>
        rw [hrs, Option.some.injEq] at h
        subst h
        cases k with
        | zero =>
          simp only [List.getElem?_cons_zero, Option.some.injEq] at hk
          subst hk
          exact ⟨r', by simp, hr⟩
        | succ k =>
          simp only [List.getElem?_cons_succ] at hk ⊢
          exact ih rs' hrs k row hk

/-- Claim C1: after running the column filter, the body row at any index is
visible (display set to the empty string) if and only if every non-empty
filter value at position `i` is contained, case-insensitively, in the text
of that row's cell at child index `i + 1`; failing rows get display "none",
and empty filter values constrain nothing. -/
theorem filterTable_visible_iff (filters : List String) (rows rows' : List Row)
    (h : filterTable filters rows = some rows') (k : Nat) (row row' : Row)
    (hk : rows[k]? = some row) (hk' : rows'[k]? = some row') :
    (row'.display = "" ∨ row'.display = "none") ∧
    (row'.display = "" ↔ ∀ i f, filters[i]? = some f → f ≠ "" →
      ∃ c, row.children[i + 1]? = some c ∧
        strIncludes (jsToLower c) (jsToLower f) = true) := by
  obtain ⟨row'', hk'', hrow⟩ := filterTable_get filters rows rows' h k row hk
  rw [hk', Option.some.injEq] at hk''
  subst hk''
  exact filterRow_visible_aux filters row row' hrow

/-- Witness for C1: with filter value "ali", the row with cell text "Bob"
ends hidden, and the characterization holds at that row. -/
theorem filterTable_visible_iff_witness :
    ((⟨["cb", "Bob"], "none"⟩ : Row).display = ""
        ∨ (⟨["cb", "Bob"], "none"⟩ : Row).display = "none") ∧
    ((⟨["cb", "Bob"], "none"⟩ : Row).display = "" ↔
      ∀ i f, (["ali"] : List String)[i]? = some f → f ≠ "" →
        ∃ c, (⟨["cb", "Bob"], ""⟩ : Row).children[i + 1]? = some c ∧
          strIncludes (jsToLower c) (jsToLower f) = true) :=
  filterTable_visible_iff ["ali"] [⟨["cb", "Bob"], ""⟩]
    [⟨["cb", "Bob"], "none"⟩] (by decide) 0 ⟨["cb", "Bob"], ""⟩
    ⟨["cb", "Bob"], "none"⟩ (by decide) (by decide)

theorem filterRow_idem (filters : List String) (row row' : Row)
    (h : filterRow filters row = some row') :
    filterRow filters row' = some row' := by
  unfold filterRow at h ⊢
  cases hrun : runFiltersFrom row.children 0 filters true with
  | none => rw [hrun] at h; exact absurd h (by simp)
  | some v =>
    rw [hrun, Option.some.injEq] at h
    subst h
    rw [show ({ row with display := if v then "" else "none" } : Row).children
          = row.children from rfl, hrun]

/-- Claim C7: the column filter is idempotent — rerunning it with unchanged
filter values on the rows it produced leaves every row's display value the
same. -/
theorem filterTable_idempotent (filters : List String) (rows rows' : List Row)
    (h : filterTable filters rows = some rows') :
    filterTable filters rows' = some rows' := by
  induction rows generalizing rows' with
  | nil =>
    unfold filterTable at h
    rw [Option.some.injEq] at h
    subst h
    rfl
  | cons r rs ih =>
    unfold filterTable at h
    cases hr : filterRow filters r with
    | none => rw [hr] at h; exact absurd h (by simp)
    | some r' =>
      rw [hr] at h
      cases hrs : filterTable filters rs with
      | none => rw [hrs] at h; exact absurd h (by simp)
      | some rs' =>
        rw [hrs, Option.some.injEq] at h
        subst h
        have hr2 := filterRow_idem filters r r' hr
        have hrs2 := ih rs' hrs
        unfold filterTable
        rw [hr2, hrs2]

/-- Witness for C7 at a concrete filtered table. -/
theorem filterTable_idempotent_witness :
    filterTable ["ali"] [⟨["cb", "Bob"], "none"⟩]
      = some [⟨["cb", "Bob"], "none"⟩] :=
  filterTable_idempotent ["ali"] [⟨["cb", "Bob"], ""⟩]
    [⟨["cb", "Bob"], "none"⟩] (by decide)

theorem mem_of_getElem_opt {α : Type} {l : List α} {i : Nat} {a : α}
    (h : l[i]? = some a) : a ∈ l := by
  induction l generalizing i with
  | nil => simp at h
  | cons x xs ih =>
    cases i with
    | zero =>
      simp only [List.getElem?_cons_zero, Option.some.injEq] at h
      exact h ▸ List.mem_cons_self x xs
    | succ n =>
      simp only [List.getElem?_cons_succ] at h
      exact List.mem_cons_of_mem x (ih h)

/-- Claim C10: a row's cell at index `i + 1` is only read when filter `i`
has a non-empty value, so a row lacking cells completes without a fault
provided every filter whose cell is missing is empty; under all-empty
filters such a row stays visible. -/
theorem filterRow_safe (filters : List String) (row : Row) :
    ((∀ i f, filters[i]? = some f → row.children[i + 1]? = none → f = "") →
      (filterRow filters row).isSome = true) ∧
    ((∀ f ∈ filters, f = "") →
      filterRow filters row = some { row with display := "" }) := by
  constructor
  · intro h
    have hok : cellsOkFrom row.children 0 filters = true := by
      apply (cellsOkFrom_iff row.children filters 0).mpr
      intro j f hj hf
      cases hc : row.children[0 + j + 1]? with
      | none =>
        rw [show (0 : Nat) + j + 1 = j + 1 by omega] at hc
        exact absurd (h j f hj hc) hf
      | some c => simp [hc]
    unfold filterRow
    rw [runFiltersFrom_eq, if_pos hok]
    simp
  · intro h
    have hok : cellsOkFrom row.children 0 filters = true := by
      apply (cellsOkFrom_iff row.children filters 0).mpr
      intro j f hj hf
      exact absurd (h f (mem_of_getElem_opt hj)) hf
    have hp : passesFrom row.children 0 filters = true := by
      apply (passesFrom_iff row.children filters 0).mpr
      intro j f hj hf
      exact absurd (h f (mem_of_getElem_opt hj)) hf
    unfold filterRow
    rw [runFiltersFrom_eq, if_pos hok]
    simp [hp]

/-- Witness for C10: one empty filter over a row that has only the checkbox
cell — no fault, and the row stays visible. -/
theorem filterRow_safe_witness :
    (filterRow [""] ⟨["cb"], "x"⟩).isSome = true ∧
    filterRow [""] ⟨["cb"], "x"⟩
      = some { (⟨["cb"], "x"⟩ : Row) with display := "" } :=
  ⟨(filterRow_safe [""] ⟨["cb"], "x"⟩).1 (by
      intro i f hf hc
      cases i with
      | zero => simp_all
      | succ n => simp at hf),
   (filterRow_safe [""] ⟨["cb"], "x"⟩).2 (by decide)⟩
